import Mathlib

/-!
Verification of the token-budgeted map-reduce text-analysis engine of the
trend-pulse backend (`src/backend/src/ai_analysis/`).

The Python source is shallowly embedded: pure functions become Lean
functions, Python `int` becomes `Nat`/`Int` (all quantities here are
non-negative counts unless noted), Python floats that only ever hold exact
small values are modelled as `Rat`, and fallible code returns `Except`.
Loops of the form `for i in range(0, n, step)` acting on slices are
rendered as fuel-indexed structural recursion (the fuel is instantiated
with the list length, which always suffices because each iteration drops
at least one element when the step is positive); this keeps every
definition kernel-computable.
-/

namespace TrendPulse

/-! ### token_counter.py : TokenCounter -/

/-- `TokenCounter.TOKEN_RATIO` — average token-to-character ratios.
The Python values are the floats 0.25, 0.6 and 0.4, modelled as exact
rationals (0.25 is exact in binary floating point; the "zh"/"mixed"
entries are not used by any claim). -/
def TOKEN_RATIO (language : String) : Rat :=
  if language = "en" then 1/4
  else if language = "zh" then 3/5
  else if language = "mixed" then 2/5
  else 1/4

/-- `TokenCounter.estimate_tokens_from_chars(char_count, language)` —
`int(char_count * ratio)`.  `char_count ≥ 0`, so Python's `int()`
truncation-toward-zero is the floor. -/
def estimate_tokens_from_chars (char_count : Nat) (language : String := "en") : Nat :=
  (Int.floor ((char_count : Rat) * TOKEN_RATIO language)).toNat

/-- One slicing pass shared by `split_posts`, `split_text_by_tokens` and the
map-phase wave loop: Python's
`while start < len(xs): yield xs[start:start+size]; start += step`
(equivalently `for i in range(0, len(xs), step)` when `step = size`).
`fuel` bounds the number of iterations; `xs.length` always suffices when
`1 ≤ step`.  (Python never terminates when `step = 0`; the model is only
used with a positive step.) -/
def sliceChunksAux (size step : Nat) : Nat → List α → List (List α)
  | _, [] => []
  | 0, _ :: _ => []
  | fuel + 1, x :: xs =>
      ((x :: xs).take size) :: sliceChunksAux size step fuel (xs.drop (step - 1))

def sliceChunks (size step : Nat) (xs : List α) : List (List α) :=
  sliceChunksAux size step xs.length xs

/-- `TokenCounter.split_text_by_tokens`, encoder path, at the level of the
tiktoken token sequence: slices of `max_tokens_per_chunk` tokens advancing
by `max_tokens_per_chunk - overlap` each step. -/
def split_text_by_tokens_tok (tokens : List Nat) (max_tokens_per_chunk overlap : Nat) :
    List (List Nat) :=
  sliceChunks max_tokens_per_chunk (max_tokens_per_chunk - overlap) tokens

/-- `TokenCounter.split_text_by_tokens`, encoder path.  `encode`/`decode`
stand for the tiktoken encoding obtained from `encoding_for_model`
(an external library). -/
def split_text_by_tokens_enc (encode : String → List Nat) (decode : List Nat → String)
    (text : String) (max_tokens_per_chunk overlap : Nat) : List String :=
  (split_text_by_tokens_tok (encode text) max_tokens_per_chunk overlap).map decode

/-- `TokenCounter.split_text_by_tokens`, fallback (character) path:
`chars_per_chunk = int(max_tokens_per_chunk / 0.25) = 4 * max_tokens_per_chunk`
and `overlap_chars = int(overlap / 0.25) = 4 * overlap` (both divisions are
exact in floating point). -/
def split_text_by_tokens_fallback (text : String) (max_tokens_per_chunk overlap : Nat) :
    List String :=
  (sliceChunks (4 * max_tokens_per_chunk) (4 * max_tokens_per_chunk - 4 * overlap)
    text.data).map (fun cs => String.mk cs)

/-! ### map_reduce.py : MapReduceProcessor -/

/-- The configuration held by `MapReduceProcessor.__init__` (the langchain
`RecursiveCharacterTextSplitter` it also builds is external and is passed
to `process` as an opaque `splitter` function). -/
structure MapReduceProcessor where
  max_tokens_per_chunk : Nat := 2000
  overlap : Nat := 200
  batch_size : Nat := 5

/-- The completion events of one `asyncio.gather(..., return_exceptions=True)`
wave: `order` is the order in which the concurrent calls complete; each
event records the argument position of the completed task and its value. -/
def completionLog (tasks : List α) (order : List Nat) : List (Nat × α) :=
  order.filterMap (fun j => (tasks[j]?).map (fun r => (j, r)))

/-- `asyncio.gather` delivers results indexed by argument position, not by
completion time: the result at position `i` is the value of the completion
event for task `i`, whatever place that event has in `order`. -/
def gatherResults (tasks : List α) (order : List Nat) : List α :=
  (List.range tasks.length).filterMap (fun i =>
    ((completionLog tasks order).find? (fun e => e.1 == i)).map (fun e => e.2))

/-- The wave loop of `MapReduceProcessor.map_phase`: process `batch_size`
chunks per wave with `asyncio.gather(return_exceptions=True)`, appending
`None` for a chunk whose call raised (`Except.error`) and the result
otherwise.  `sched w` is the completion order of wave `w`; `fuel` as in
`sliceChunksAux`. -/
def runWavesAux (mapF : String → Except E A) (sched : Nat → List Nat) (bs : Nat) :
    Nat → List String → Nat → List (Option A)
  | _, [], _ => []
  | 0, _ :: _, _ => []
  | fuel + 1, c :: cs, w =>
      let batch := (c :: cs).take bs
      (gatherResults (batch.map mapF) (sched w)).map Except.toOption
        ++ runWavesAux mapF sched bs fuel (cs.drop (bs - 1)) (w + 1)

/-- `MapReduceProcessor.map_phase`: run the waves, then
`[r for r in results if r is not None]`. -/
def MapReduceProcessor.map_phase (p : MapReduceProcessor) (chunks : List String)
    (mapF : String → Except E A) (sched : Nat → List Nat) : List A :=
  (runWavesAux mapF sched p.batch_size chunks.length chunks 0).filterMap id

/-- `MapReduceProcessor.reduce_phase`: `await reduce_func(map_results)`.
An exception raised by the injected reduce function propagates.  The
argument type is generic because Python places no constraint on what is
passed as `map_results`. -/
def reduce_phase (map_results : α) (reduce_func : α → Except String β) : Except String β :=
  reduce_func map_results

/-- `MapReduceProcessor.process`: split the text (via the configured
langchain splitter, external, here the opaque `splitter`), run the map
phase, then the reduce phase. -/
def MapReduceProcessor.process (p : MapReduceProcessor) (splitter : String → List String)
    (text : String) (mapF : String → Except E A) (reduceF : List A → Except E B)
    (sched : Nat → List Nat) : Except E B :=
  reduceF (p.map_phase (splitter text) mapF sched)

/-- `MapReduceProcessor.split_posts`: estimate tokens from the total
character count of the posts, derive `chunks_needed` and a `batch_size`,
then slice `posts[i:i+batch_size]` for `i in range(0, len(posts), batch_size)`.
`contentLen` is `len(p.get("content", ""))` for the concrete post type. -/
def MapReduceProcessor.split_posts (p : MapReduceProcessor) (contentLen : α → Nat)
    (posts : List α) : List (List α) :=
  let total_chars := (posts.map contentLen).sum
  let estimated_tokens := estimate_tokens_from_chars total_chars
  let chunks_needed := max 1 (estimated_tokens / p.max_tokens_per_chunk)
  let batch_size := max 1 (posts.length / chunks_needed)
  sliceChunks batch_size batch_size posts

/-! ### sentiment_v2.py : SentimentAnalyzerV2 result validation -/

/-- A Python value as found in the raw result dictionaries parsed from model
output (JSON): integers, floats (modelled as exact rationals), strings, and
`None`. -/
inductive PyVal where
  | vint (n : Int)
  | vfloat (q : Rat)
  | vstr (s : String)
  | vnone
deriving DecidableEq, Repr

/-- Python `int(s)` on a string: strip surrounding whitespace, optional
sign, then decimal digits (digit-group underscores are not modelled; no
claim depends on them). -/
def pyParseInt (s : String) : Except String Int :=
  let t := ((s.data.dropWhile Char.isWhitespace).reverse.dropWhile Char.isWhitespace).reverse
  let signed : Int × List Char :=
    match t with
    | c :: rest => if c = '-' then (-1, rest) else if c = '+' then (1, rest) else (1, t)
    | [] => (1, t)
  if signed.2.isEmpty then .error "ValueError"
  else if signed.2.all Char.isDigit then
    .ok (signed.1 * (signed.2.foldl (fun acc c => 10 * acc + (c.toNat - 48)) 0 : Nat))
  else .error "ValueError"

/-- Python `int(v)`: identity on ints, truncation toward zero on floats,
string parsing on strings, `TypeError` on `None`. -/
def pyToInt : PyVal → Except String Int
  | .vint n => .ok n
  | .vfloat q => .ok (if q < 0 then Int.ceil q else Int.floor q)
  | .vstr s => pyParseInt s
  | .vnone => .error "TypeError"

/-- The raw result dictionary handed to `_validate_result`; `none` fields
are absent keys.  (Only the four keys the function touches are relevant;
other keys pass through untouched.) -/
structure RawResult where
  score : Option PyVal
  label : Option PyVal
  confidence : Option PyVal
  reasoning : Option PyVal

/-- The normalized record produced by `_validate_result`: `score` is the
clamped integer, `label` one of the three strings; `confidence` and
`reasoning` are returned as they ended up in the dictionary. -/
structure SentimentRecord where
  score : Int
  label : String
  confidence : PyVal
  reasoning : PyVal
deriving DecidableEq, Repr

/-- The score-to-label thresholds of `_validate_result`:
`score >= 60 → positive`, `score >= 40 → neutral`, else `negative`. -/
def deriveLabel (score : Int) : String :=
  if 60 ≤ score then "positive"
  else if 40 ≤ score then "neutral"
  else "negative"

/-- Whether the `label` entry (after defaulting a missing one to
`"neutral"`) is one of the three valid labels — the
`result["label"] not in valid_labels` test of `_validate_result`. -/
def labelValid (label : Option PyVal) : Bool :=
  match label.getD (.vstr "neutral") with
  | .vstr s => s ∈ ["positive", "negative", "neutral"]
  | _ => false

/-- `SentimentAnalyzerV2._validate_result`: default each missing required
key (`score` 50, `label` "neutral", `confidence` 0.5) and a missing
`reasoning`; convert the score with `int(...)` (which can raise) and clamp
it into `[0, 100]`; re-derive an invalid label from the clamped score. -/
def validate_result (raw : RawResult) : Except String SentimentRecord :=
  let score0 := raw.score.getD (.vint 50)
  let label0 := raw.label.getD (.vstr "neutral")
  let conf0 := raw.confidence.getD (.vfloat (1/2))
  let reasoning0 := raw.reasoning.getD (.vstr "Sentiment analysis completed")
  match pyToInt score0 with
  | .error e => .error e
  | .ok n =>
      let score := max 0 (min 100 n)
      let label :=
        match label0 with
        | .vstr s => if s ∈ ["positive", "negative", "neutral"] then s else deriveLabel score
        | _ => deriveLabel score
      .ok ⟨score, label, conf0, reasoning0⟩

/-! ### sentiment aggregation -/

/-- Python `round(q, 1)` on an exact value: scale by 10, round half to
even, scale back.  (Floating-point representation error is not modelled;
on the integer and half-integer values produced by averaging integer
scores the float computation is exact, so the model agrees with Python
there.) -/
def pyRoundHalfEven (q : Rat) : Int :=
  let n := Int.floor q
  let r := q - n
  if r < 1/2 then n
  else if 1/2 < r then n + 1
  else if Even n then n else n + 1

def pyRound1 (q : Rat) : Rat := (pyRoundHalfEven (10 * q) : Rat) / 10

/-- `SentimentAnalyzerV2.calculate_overall_sentiment`: 50.0 on an empty
list, else the mean rounded to one decimal. -/
def calculate_overall_sentiment (sentiment_scores : List Rat) : Rat :=
  if sentiment_scores.isEmpty then 50
  else pyRound1 (sentiment_scores.sum / (sentiment_scores.length : Rat))

/-- `SentimentAnalyzer.calculate_overall_sentiment` (sentiment.py, the v1
module): the plain mean, without rounding. -/
def calculate_overall_sentiment_v1 (sentiment_scores : List Rat) : Rat :=
  if sentiment_scores.isEmpty then 50
  else sentiment_scores.sum / (sentiment_scores.length : Rat)

/-! ### sentiment_v2.py : the batch map-reduce path

`_analyze_batch_map_reduce` manipulates Python lists and dictionaries
dynamically, and its defect is a dynamic type confusion, so this part is
embedded over a small dynamic value type. -/

/-- A Python object as flowing through `_analyze_batch_map_reduce`:
strings, string-keyed dictionaries, and lists. -/
inductive Dyn where
  | str (s : String)
  | dict (entries : List (String × Dyn))
  | list (elems : List Dyn)

/-- Python subscription `v[key]` with a string key: dictionary lookup
(`KeyError` when absent); a `TypeError` on lists and strings. -/
def pyGetItem (v : Dyn) (key : String) : Except String Dyn :=
  match v with
  | .dict es =>
      match es.lookup key with
      | some x => .ok x
      | none => .error "KeyError"
  | .list _ => .error "TypeError: list indices must be integers or slices, not str"
  | .str _ => .error "TypeError: string indices must be integers"

/-- `len(p.get("content", ""))` for a post dictionary (the posts built in
`_analyze_batch_map_reduce` always carry a string under "content"). -/
def dynContentLen (p : Dyn) : Nat :=
  match p with
  | .dict es =>
      match es.lookup "content" with
      | some (.str s) => s.length
      | _ => 0
  | _ => 0

/-- A Python list comprehension `[f(p) for p in ps]` evaluated left to
right; the first raising element aborts the whole comprehension. -/
def pyListComp (f : Dyn → Except String Dyn) : List Dyn → Except String (List Dyn)
  | [] => .ok []
  | p :: ps =>
      match f p with
      | .error e => .error e
      | .ok v =>
          match pyListComp f ps with
          | .error e => .error e
          | .ok vs => .ok (v :: vs)

/-- The `map_batch` closure of `_analyze_batch_map_reduce`:
`batch_texts = [p["content"] for p in posts]`, then hand the texts to
`_analyze_batch_direct` (abstracted as `direct`: it wraps the external
model call and its own per-item fallback). -/
def map_batch (direct : List Dyn → Except String (List A)) (posts : List Dyn) :
    Except String (List A) :=
  match pyListComp (fun p => pyGetItem p "content") posts with
  | .error e => .error e
  | .ok batch_texts => direct batch_texts

/-- The processor built in `_analyze_batch_map_reduce`:
`MapReduceProcessor(max_tokens_per_chunk=2000, batch_size=5)`. -/
def sentimentBatchProcessor : MapReduceProcessor :=
  { max_tokens_per_chunk := 2000, overlap := 200, batch_size := 5 }

/-- `SentimentAnalyzerV2._analyze_batch_map_reduce`.  The source computes
`batches = processor.split_posts([{"content": t} for t in texts])` and then
calls `processor.reduce_phase(batches, map_batch, ...)` — so the list of
batches is passed as the reduce input, and `map_batch` as the reduce
function; the elements `map_batch` iterates over are therefore whole
batches (Python lists), not post dictionaries.  (Its `reduce_batch`
closure is never used, and the flatten loop after the call is unreachable
for non-empty input because the call raises first; on that unreachable
path the model returns the value of the `reduce_phase` call.) -/
def analyze_batch_map_reduce (texts : List String)
    (direct : List Dyn → Except String (List A)) : Except String (List A) :=
  let posts : List Dyn := texts.map (fun t => .dict [("content", .str t)])
  let batches := sentimentBatchProcessor.split_posts dynContentLen posts
  reduce_phase (batches.map Dyn.list) (map_batch direct)

/-- `SentimentAnalyzerV2.analyze_batch`: empty input short-circuits to
`[]`; otherwise clean the texts (`TextPreprocessor.clean_for_analysis`,
abstracted as `clean` — pure string normalization), estimate the total
tokens (`TokenCounter.count_tokens_batch`, tiktoken-backed, abstracted as
`count_tokens_batch`), and pick the map-reduce path when the estimate
exceeds 4000 or the caller asked for it, the direct path (abstracted as
`directPath`) otherwise. -/
def analyze_batch (texts : List String) (use_map_reduce : Bool)
    (clean : String → String) (count_tokens_batch : List String → Nat)
    (direct : List Dyn → Except String (List A))
    (directPath : List String → Except String (List A)) : Except String (List A) :=
  if texts.isEmpty then .ok []
  else
    let cleaned := texts.map clean
    let total_tokens := count_tokens_batch cleaned
    if 4000 < total_tokens || use_map_reduce then analyze_batch_map_reduce cleaned direct
    else directPath cleaned

/-! ### clustering.py : OpinionClusterer._merge_similar_clusters -/

/-- An opinion-cluster dictionary.  `label` and `summary` are accessed by
direct subscription in the source (required keys of the data model);
`mention_count` and `sample_quotes` are read with `.get(..., default)`,
so they are optional here. -/
structure Cluster where
  label : String
  summary : String
  mention_count : Option Int
  sample_quotes : Option (List String)
deriving DecidableEq, Repr

/-- `cluster["label"].lower().split()`: lower-case (ASCII, as all labels
here are), split on whitespace runs, no empty words — Python
`str.split()` with no separator. -/
def splitWSAux : List Char → List Char → List String
  | [], acc => if acc.isEmpty then [] else [String.mk acc.reverse]
  | c :: cs, acc =>
      if c.isWhitespace then
        if acc.isEmpty then splitWSAux cs [] else String.mk acc.reverse :: splitWSAux cs []
      else splitWSAux cs (c :: acc)

def lowerWords (s : String) : List String :=
  splitWSAux (s.data.map Char.toLower) []

/-- `label_words & other_words` nonempty: the two bag-of-words label token
sets share at least one token. -/
def overlapLabels (c d : Cluster) : Bool :=
  (lowerWords c.label).any (fun w => (lowerWords d.label).contains w)

/-- The quote-collection loop of the merge branch: walk all member quotes
in encounter order, keep the first occurrence of each, stop at 3. -/
def uniqueQuotes : List String → List String → List String → List String
  | [], _, acc => acc
  | q :: rest, seen, acc =>
      if seen.contains q then uniqueQuotes rest seen acc
      else
        let acc2 := acc ++ [q]
        if 3 ≤ acc2.length then acc2 else uniqueQuotes rest (q :: seen) acc2

/-- The greedy grouping loop of `_merge_similar_clusters`: the first
unused cluster collects every later unused cluster whose label shares a
token with it; all of them become used.  This is the head of the list
together with the matching part of its tail, recursing on the
non-matching part.  `fuel` as in `sliceChunksAux` (each round consumes at
least the head). -/
def greedyGroupsAux : Nat → List Cluster → List (List Cluster)
  | _, [] => []
  | 0, _ :: _ => []
  | fuel + 1, c :: rest =>
      (c :: rest.filter (fun d => overlapLabels c d))
        :: greedyGroupsAux fuel (rest.filter (fun d => !overlapLabels c d))

def greedyGroups (clusters : List Cluster) : List (List Cluster) :=
  greedyGroupsAux clusters.length clusters

/-- `x.get("mention_count", 0)` — the sort and sum key. -/
def clusterKey (c : Cluster) : Int := c.mention_count.getD 0

/-- Merging one group: a single member passes through unchanged; several
members synthesize one cluster (label of the first member, templated
summary, summed mention counts, first 3 distinct quotes in encounter
order). -/
def mergeGroup (g : List Cluster) : Cluster :=
  match g with
  | [] => ⟨"", "", none, none⟩
  | [c] => c
  | c :: _ :: _ =>
      { label := c.label
        summary := "Combined insights from " ++ toString g.length ++ " related discussions"
        mention_count := some ((g.map clusterKey).sum)
        sample_quotes := some (uniqueQuotes (g.flatMap (fun d => d.sample_quotes.getD [])) [] []) }

/-- The descending mention-count order used by
`merged.sort(key=lambda x: x.get("mention_count", 0), reverse=True)`. -/
def clusterDescOrder (c d : Cluster) : Prop := clusterKey d ≤ clusterKey c

instance : DecidableRel clusterDescOrder := fun _ _ => Int.decLe _ _

instance : IsTotal Cluster clusterDescOrder :=
  ⟨fun a b => le_total (clusterKey b) (clusterKey a)⟩

instance : IsTrans Cluster clusterDescOrder :=
  ⟨fun _ _ _ hab hbc => le_trans hbc hab⟩

/-- `OpinionClusterer._merge_similar_clusters`: unchanged when there are
at most `max_clusters` clusters; otherwise group greedily by shared label
tokens, merge each group, sort descending by mention count (Python
`list.sort` is stable; `insertionSort` computes the same list as any
stable sort for this key order) and truncate. -/
def merge_similar_clusters (clusters : List Cluster) (max_clusters : Nat) : List Cluster :=
  if clusters.length ≤ max_clusters then clusters
  else
    ((greedyGroups clusters).map mergeGroup).insertionSort clusterDescOrder
      |>.take max_clusters

/-! ### Shared lemmas -/

lemma estimate_tokens_from_chars_en (n : Nat) : estimate_tokens_from_chars n = n / 4 := by
  unfold estimate_tokens_from_chars TOKEN_RATIO
  rw [if_pos rfl]
  rw [show ((n : Rat) * (1/4)) = (n : Rat) / ((4 : Nat) : Rat) by push_cast; ring]
  rw [Int.floor_toNat, Nat.floor_div_eq_div]

lemma find_completionLog (tasks : List α) :
    ∀ (order : List Nat) (i : Nat) (h : i < tasks.length), i ∈ order →
      (completionLog tasks order).find? (fun e => e.1 == i) = some (i, tasks.get ⟨i, h⟩) := by
  intro order
  induction order with
  | nil => intro i h hi; cases hi
  | cons j rest ih =>
      intro i h hi
      simp only [completionLog, List.filterMap_cons]
      cases hj : tasks[j]? with
      | none =>
          have hij : i ≠ j := by
            intro e; subst e
            rw [List.getElem?_eq_getElem h] at hj; cases hj
          have : i ∈ rest := by
            rcases List.mem_cons.mp hi with h1 | h1
            · exact absurd h1 hij
            · exact h1
          exact ih i h this
      | some r =>
          by_cases hij : j = i
          · subst hij
            rw [List.getElem?_eq_getElem h] at hj
            injection hj with hj
            simp [List.find?, hj]
          · have : i ∈ rest := by
              rcases List.mem_cons.mp hi with h1 | h1
              · exact absurd h1.symm hij
              · exact h1
            have hne : (j == i) = false := by simp [hij]
            simp only [List.find?, hne]
            exact ih i h this

lemma filterMap_range_eq (l : List α) :
    ∀ (g : Nat → Option α), (∀ i, i < l.length → g i = l[i]?) →
      (List.range l.length).filterMap g = l := by
  induction l with
  | nil => intro g _; simp
  | cons x xs ih =>
      intro g hg
      rw [List.length_cons, List.range_succ_eq_map, List.filterMap_cons]
      have h0 : g 0 = some x := by
        have := hg 0 (Nat.succ_pos _)
        simpa using this
      simp only [h0, List.filterMap_map]
      have := ih (g ∘ Nat.succ) (fun i hi => by
        have := hg (i + 1) (Nat.succ_lt_succ hi)
        simpa using this)
      rw [this]

lemma gather_eq (tasks : List α) (order : List Nat)
    (h : ∀ i, i < tasks.length → i ∈ order) : gatherResults tasks order = tasks := by
  apply filterMap_range_eq
  intro i hi
  rw [find_completionLog tasks order i hi (h i hi)]
  simp [List.getElem?_eq_getElem hi, List.get_eq_getElem]

lemma runWavesAux_eq (mapF : String → Except E A) (sched : Nat → List Nat) (bs : Nat)
    (hbs : 1 ≤ bs) (hsched : ∀ v i, i < bs → i ∈ sched v) :
    ∀ (fuel : Nat) (chunks : List String) (w : Nat), chunks.length ≤ fuel →
      runWavesAux mapF sched bs fuel chunks w = (chunks.map mapF).map Except.toOption := by
  intro fuel
  induction fuel with
  | zero =>
      intro chunks w hlen
      have : chunks = [] := List.length_eq_zero.mp (Nat.le_zero.mp hlen)
      subst this; rfl
  | succ fuel ih =>
      intro chunks w hlen
      match chunks with
      | [] => rfl
      | c :: cs =>
          have hcover : ∀ i, i < (((c :: cs).take bs).map mapF).length → i ∈ sched w := by
            intro i hi
            apply hsched w
            have : (((c :: cs).take bs).map mapF).length ≤ bs := by
              simp [List.length_take]
            omega
          simp only [runWavesAux, gather_eq _ _ hcover]
          rw [ih (cs.drop (bs - 1)) (w + 1) (by simp [List.length_drop] at hlen ⊢; omega)]
          have hsplit : (c :: cs).take bs ++ cs.drop (bs - 1) = c :: cs := by
            have hb : bs = (bs - 1) + 1 := by omega
            rw [hb]
            simp only [List.take_succ_cons, List.drop_succ_cons]
            rw [← List.take_append_drop (bs - 1) cs]
            simp
          rw [← List.map_append, ← List.map_append, hsplit]

lemma map_phase_eq (p : MapReduceProcessor) (chunks : List String)
    (mapF : String → Except E A) (sched : Nat → List Nat)
    (hbs : 1 ≤ p.batch_size) (hsched : ∀ v i, i < p.batch_size → i ∈ sched v) :
    p.map_phase chunks mapF sched = (chunks.map mapF).filterMap Except.toOption := by
  unfold MapReduceProcessor.map_phase
  rw [runWavesAux_eq mapF sched p.batch_size hbs hsched chunks.length chunks 0 le_rfl]
  rw [List.filterMap_map]
  rfl


lemma sliceAux_flatten (size : Nat) (hsz : 1 ≤ size) :
    ∀ (fuel : Nat) (xs : List α), xs.length ≤ fuel →
      (sliceChunksAux size size fuel xs).flatten = xs := by
  intro fuel
  induction fuel with
  | zero =>
      intro xs hlen
      have : xs = [] := List.length_eq_zero.mp (Nat.le_zero.mp hlen)
      subst this; rfl
  | succ fuel ih =>
      intro xs hlen
      match xs with
      | [] => rfl
      | x :: rest =>
          simp only [sliceChunksAux, List.flatten_cons]
          rw [ih (rest.drop (size - 1)) (by simp [List.length_drop] at hlen ⊢; omega)]
          have hb : size = (size - 1) + 1 := by omega
          rw [hb, List.take_succ_cons]
          simp only [Nat.add_sub_cancel]
          rw [List.cons_append, List.take_append_drop]

lemma sliceAux_length (size : Nat) (hsz : 1 ≤ size) :
    ∀ (fuel : Nat) (xs : List α), xs.length ≤ fuel →
      (sliceChunksAux size size fuel xs).length = (xs.length + size - 1) / size := by
  intro fuel
  induction fuel with
  | zero =>
      intro xs hlen
      have : xs = [] := List.length_eq_zero.mp (Nat.le_zero.mp hlen)
      subst this
      simp [sliceChunksAux, Nat.div_eq_of_lt (by omega : size - 1 < size)]
  | succ fuel ih =>
      intro xs hlen
      match xs with
      | [] => simp [sliceChunksAux, Nat.div_eq_of_lt (by omega : size - 1 < size)]
      | x :: rest =>
          simp only [sliceChunksAux, List.length_cons]
          rw [ih (rest.drop (size - 1)) (by simp [List.length_drop] at hlen ⊢; omega)]
          simp only [List.length_drop]
          have e3 : rest.length + 1 + size - 1 = rest.length + 1 * size := by omega
          rw [e3, Nat.add_mul_div_right _ _ (by omega : 0 < size)]
          rcases Nat.lt_or_ge rest.length (size - 1) with hlt | hge2
          · have e1 : rest.length - (size - 1) = 0 := by omega
            rw [e1]
            rw [Nat.div_eq_of_lt (by omega : 0 + size - 1 < size)]
            rw [Nat.div_eq_of_lt (by omega : rest.length < size)]
          · have e1 : rest.length - (size - 1) + size - 1 = rest.length := by omega
            rw [e1]

lemma sliceAux_mem_length (size step : Nat) :
    ∀ (fuel : Nat) (xs : List α) (c : List α), c ∈ sliceChunksAux size step fuel xs →
      c.length ≤ size := by
  intro fuel
  induction fuel with
  | zero =>
      intro xs c hc
      match xs with
      | [] => cases hc
      | _ :: _ => cases hc
  | succ fuel ih =>
      intro xs c hc
      match xs with
      | [] => cases hc
      | x :: rest =>
          simp only [sliceChunksAux, List.mem_cons] at hc
          rcases hc with rfl | hc
          · simp [List.length_take]
          · exact ih _ c hc

lemma sliceAux_mem_slice (size step : Nat) (hst : 1 ≤ step) :
    ∀ (fuel : Nat) (xs : List α) (c : List α), c ∈ sliceChunksAux size step fuel xs →
      ∃ i, c = (xs.drop i).take size := by
  intro fuel
  induction fuel with
  | zero =>
      intro xs c hc
      match xs with
      | [] => cases hc
      | _ :: _ => cases hc
  | succ fuel ih =>
      intro xs c hc
      match xs with
      | [] => cases hc
      | x :: rest =>
          simp only [sliceChunksAux, List.mem_cons] at hc
          rcases hc with rfl | hc
          · exact ⟨0, by simp⟩
          · rcases ih _ c hc with ⟨i, rfl⟩
            refine ⟨step + i, ?_⟩
            rw [show step + i = ((step - 1) + i) + 1 by omega, List.drop_succ_cons,
              List.drop_drop]

lemma sliceAux_chain (size step : Nat) (hst : 1 ≤ step) (hss : step ≤ size) :
    ∀ (fuel : Nat) (xs : List α), xs.length ≤ fuel →
      List.Chain' (fun a b => a.drop step = b.take (size - step))
        (sliceChunksAux size step fuel xs) := by
  intro fuel
  induction fuel with
  | zero =>
      intro xs hlen
      have : xs = [] := List.length_eq_zero.mp (Nat.le_zero.mp hlen)
      subst this; exact List.chain'_nil
  | succ fuel ih =>
      intro xs hlen
      match xs with
      | [] => exact List.chain'_nil
      | x :: rest =>
          simp only [sliceChunksAux]
          apply List.Chain'.cons'
          · exact ih _ (by simp [List.length_drop] at hlen ⊢; omega)
          · intro b hb
            have hys : rest.drop (step - 1) = (x :: rest).drop step := by
              conv_rhs => rw [show step = (step - 1) + 1 by omega]
              rw [List.drop_succ_cons]
            cases hys2 : rest.drop (step - 1) with
            | nil =>
                rw [hys2] at hb
                simp [sliceChunksAux] at hb
            | cons y ys =>
                obtain ⟨fuel2, rfl⟩ : ∃ f2, fuel = f2 + 1 := by
                  refine ⟨fuel - 1, ?_⟩
                  have hr1 : 1 ≤ rest.length := by
                    have hl2 := congrArg List.length hys2
                    simp [List.length_drop] at hl2
                    omega
                  simp at hlen
                  omega
                rw [hys2] at hb
                simp only [sliceChunksAux, List.head?, Option.mem_def,
                  Option.some.injEq] at hb
                subst hb
                have hyy : y :: ys = (x :: rest).drop step := by rw [← hys2, hys]
                rw [hyy, List.drop_take, List.take_take,
                  Nat.min_eq_left (by omega : size - step ≤ size)]

/-- Well-formedness of an opinion cluster per the data model. -/
def clusterWF (c : Cluster) : Prop :=
  0 ≤ clusterKey c ∧ (c.sample_quotes.getD []).length ≤ 3 ∧ (c.sample_quotes.getD []).Nodup

instance (c : Cluster) : Decidable (clusterWF c) := by unfold clusterWF; infer_instance

lemma uniqueQuotes_wf :
    ∀ (qs seen acc : List String), acc.Nodup → acc.length < 3 → (∀ a ∈ acc, a ∈ seen) →
      (uniqueQuotes qs seen acc).Nodup ∧ (uniqueQuotes qs seen acc).length ≤ 3 := by
  intro qs
  induction qs with
  | nil => intro seen acc h1 h2 _; exact ⟨h1, Nat.le_of_lt h2⟩
  | cons q rest ih =>
      intro seen acc h1 h2 h3
      simp only [uniqueQuotes]
      by_cases hq : seen.contains q
      · simp only [hq, if_true]
        exact ih seen acc h1 h2 h3
      · simp only [hq, if_false]
        have hqacc : q ∉ acc := fun hmem => hq (List.elem_eq_true_of_mem (h3 q hmem))
        have hnodup2 : (acc ++ [q]).Nodup := by
          simp [List.nodup_append, h1, hqacc]
        by_cases hlen : 3 ≤ (acc ++ [q]).length
        · simp only [hlen, if_true]
          refine ⟨hnodup2, ?_⟩
          simp [List.length_append] at hlen ⊢
          omega
        · simp only [hlen, if_false]
          apply ih (q :: seen) (acc ++ [q]) hnodup2
          · simp [List.length_append] at hlen ⊢; omega
          · intro a ha
            rcases List.mem_append.mp ha with h | h
            · exact List.mem_cons_of_mem q (h3 a h)
            · simp at h; subst h; exact List.mem_cons_self _ _

lemma greedyGroupsAux_sub :
    ∀ (fuel : Nat) (cs : List Cluster) (g : List Cluster), g ∈ greedyGroupsAux fuel cs →
      ∀ d ∈ g, d ∈ cs := by
  intro fuel
  induction fuel with
  | zero =>
      intro cs g hg
      match cs with
      | [] => cases hg
      | _ :: _ => cases hg
  | succ fuel ih =>
      intro cs g hg
      match cs with
      | [] => cases hg
      | c :: rest =>
          simp only [greedyGroupsAux, List.mem_cons] at hg
          rcases hg with rfl | hg
          · intro d hd
            rcases List.mem_cons.mp hd with rfl | hd
            · exact List.mem_cons_self _ _
            · exact List.mem_cons_of_mem _ (List.mem_of_mem_filter hd)
          · intro d hd
            have := ih _ g hg d hd
            exact List.mem_cons_of_mem _ (List.mem_of_mem_filter this)

lemma mergeGroup_wf (g : List Cluster) (clusters : List Cluster)
    (hsub : ∀ d ∈ g, d ∈ clusters) (hwf : ∀ c ∈ clusters, clusterWF c) :
    clusterWF (mergeGroup g) := by
  match g with
  | [] => exact ⟨le_refl 0, by simp [mergeGroup], by simp [mergeGroup]⟩
  | [c] => exact hwf c (hsub c (List.mem_cons_self _ _))
  | c :: d :: rest =>
      refine ⟨?_, ?_, ?_⟩
      · show 0 ≤ clusterKey (mergeGroup (c :: d :: rest))
        have : clusterKey (mergeGroup (c :: d :: rest))
            = ((c :: d :: rest).map clusterKey).sum := by
          simp [mergeGroup, clusterKey]
        rw [this]
        apply List.sum_nonneg
        intro x hx
        rcases List.mem_map.mp hx with ⟨e, he, rfl⟩
        exact (hwf e (hsub e he)).1
      · have h := (uniqueQuotes_wf ((c :: d :: rest).flatMap (fun e => e.sample_quotes.getD []))
          [] [] List.nodup_nil (by simp) (by simp)).2
        simpa [mergeGroup] using h
      · have h := (uniqueQuotes_wf ((c :: d :: rest).flatMap (fun e => e.sample_quotes.getD []))
          [] [] List.nodup_nil (by simp) (by simp)).1
        simpa [mergeGroup] using h

lemma pyRoundHalfEven_intCast (n : Int) : pyRoundHalfEven (n : Rat) = n := by
  unfold pyRoundHalfEven
  rw [Int.floor_intCast]
  norm_num

lemma pyRound1_half_int (k : Int) : pyRound1 ((k : Rat) / 2) = (k : Rat) / 2 := by
  unfold pyRound1
  rw [show (10 : Rat) * ((k : Rat) / 2) = ((5 * k : Int) : Rat) by push_cast; ring]
  rw [pyRoundHalfEven_intCast]
  push_cast
  ring

lemma pyRound1_int (n : Int) : pyRound1 (n : Rat) = n := by
  have h := pyRound1_half_int (2 * n)
  rw [show ((2 * n : Int) : Rat) / 2 = (n : Rat) by push_cast; ring] at h
  exact h

lemma deriveLabel_mem (score : Int) : deriveLabel score ∈ ["positive", "negative", "neutral"] := by
  unfold deriveLabel
  split
  · simp
  · split
    · simp
    · simp

lemma sliceChunks_cons_head (size step : Nat) (hsz : 1 ≤ size) (q : α) (qs : List α) :
    ∃ b0 brest, sliceChunks size step (q :: qs) = (q :: b0) :: brest := by
  obtain ⟨k, rfl⟩ : ∃ k, size = k + 1 := ⟨size - 1, by omega⟩
  refine ⟨qs.take k, sliceChunksAux (k + 1) step qs.length (qs.drop (step - 1)), ?_⟩
  simp [sliceChunks, sliceChunksAux, List.take_succ_cons]

/-! ### Claim theorems -/

/-- C1: for every input text and injected map function, if the map function
fails (raises) on every chunk, `MapReduceProcessor.process` returns exactly
`reduceFn` applied to the empty list and never raises: each failing
per-chunk call is caught and replaced by a `None` marker inside
`map_phase` (whose `Except`-free return type records that no exception
escapes it), and the `None`s are filtered out before the reduce step, so
the reduce function receives `[]`. -/
theorem C1_process_total_failure_returns_reduce_of_empty
    (p : MapReduceProcessor) (splitter : String → List String) (text : String)
    (mapF : String → Except E A) (reduceF : List A → Except E B) (sched : Nat → List Nat)
    (hbs : 1 ≤ p.batch_size) (hsched : ∀ v i, i < p.batch_size → i ∈ sched v)
    (hfail : ∀ c, ∃ e, mapF c = Except.error e) :
    p.process splitter text mapF reduceF sched = reduceF [] ∧
      p.map_phase (splitter text) mapF sched = [] := by
  have hmp : p.map_phase (splitter text) mapF sched = [] := by
    rw [map_phase_eq p _ mapF sched hbs hsched]
    rw [List.filterMap_eq_nil_iff]
    intro a ha
    rcases List.mem_map.mp ha with ⟨c, _, rfl⟩
    rcases hfail c with ⟨e, he⟩
    rw [he]; rfl
  exact ⟨by rw [MapReduceProcessor.process, hmp], hmp⟩

/-- Witness for C1 at a concrete input: a splitter producing two chunks, a
map function failing on both, a reduce function returning the length of
its input; `process` returns `reduceFn([]) = Except.ok 0`. -/
theorem C1_witness :
    (∀ c : String, ∃ e, (fun _ : String => (Except.error "boom" : Except String Nat)) c
        = Except.error e) ∧
    MapReduceProcessor.process ⟨2000, 200, 5⟩ (fun t => [t, t ++ t]) "post"
        (fun _ => (Except.error "boom" : Except String Nat))
        (fun l => (Except.ok l.length : Except String Nat))
        (fun _ => [0, 1, 2, 3, 4])
      = Except.ok 0 :=
  ⟨fun _ => ⟨"boom", rfl⟩,
    (C1_process_total_failure_returns_reduce_of_empty ⟨2000, 200, 5⟩ (fun t => [t, t ++ t])
      "post" (fun _ => (Except.error "boom" : Except String Nat))
      (fun l => (Except.ok l.length : Except String Nat))
      (fun _ => [0, 1, 2, 3, 4]) (by decide)
      (fun v i hi => by
        simp only [List.mem_cons, List.not_mem_nil, or_false]
        have h5 : i < 5 := hi
        omega)
      (fun _ => ⟨"boom", rfl⟩)).1.trans rfl⟩

/-- C2: for every list of chunks and every map function, the list
`map_phase` hands to the reduce function equals the order-preserving
failure-filtering map of the chunk list — ordered by chunk index with
failed chunks omitted and every successful result present — for every
completion schedule `sched` of the concurrent waves (so regardless of
which calls complete first within a wave). -/
theorem C2_map_phase_order_preserving_failure_filter
    (p : MapReduceProcessor) (chunks : List String)
    (mapF : String → Except E A) (sched : Nat → List Nat)
    (hbs : 1 ≤ p.batch_size) (hsched : ∀ v i, i < p.batch_size → i ∈ sched v) :
    p.map_phase chunks mapF sched = (chunks.map mapF).filterMap Except.toOption :=
  map_phase_eq p chunks mapF sched hbs hsched

/-- Witness for C2 at a concrete input: three chunks in waves of two, with
a completion schedule in which the later-indexed call of each wave
completes first, and a map function failing on the middle chunk; the
result keeps the original order with the failure omitted. -/
theorem C2_witness :
    MapReduceProcessor.map_phase ⟨2000, 200, 2⟩ ["a", "b", "c"]
        (fun c => if c = "b" then Except.error "boom" else Except.ok c)
        (fun _ => [1, 0])
      = ["a", "c"] :=
  (C2_map_phase_order_preserving_failure_filter ⟨2000, 200, 2⟩ ["a", "b", "c"]
    (fun c => if c = "b" then Except.error "boom" else Except.ok c)
    (fun _ => [1, 0]) (by decide)
    (fun v i hi => by
      simp only [List.mem_cons, List.not_mem_nil, or_false]
      have h2 : i < 2 := hi
      omega)).trans (by decide)

/-- The defect behind C3: for every non-empty text list and every injected
per-batch analyzer, `_analyze_batch_map_reduce` raises
`TypeError: list indices must be integers or slices, not str`, because it
passes the batch list as the reduce input and `map_batch` as the reduce
function, so `map_batch` subscripts a list with `"content"`. -/
lemma analyze_batch_map_reduce_raises (texts : List String)
    (direct : List Dyn → Except String (List A)) (h : texts ≠ []) :
    analyze_batch_map_reduce texts direct
      = Except.error "TypeError: list indices must be integers or slices, not str" := by
  obtain ⟨t, rest, rfl⟩ := List.exists_cons_of_ne_nil h
  have hhead : ∃ b0 brest,
      sentimentBatchProcessor.split_posts dynContentLen
        ((t :: rest).map (fun s => Dyn.dict [("content", Dyn.str s)]))
      = (Dyn.dict [("content", Dyn.str t)] :: b0) :: brest := by
    rw [List.map_cons]
    unfold MapReduceProcessor.split_posts
    exact sliceChunks_cons_head _ _ (le_max_left _ _) _ _
  obtain ⟨b0, brest, heq⟩ := hhead
  simp only [analyze_batch_map_reduce]
  rw [heq]
  simp [reduce_phase, map_batch, pyListComp, pyGetItem]

/-- C3 fails on the code (code bug): whenever `analyze_batch` takes its
map-reduce path (non-empty input and estimated tokens above 4000, or
map-reduce requested), the call raises a `TypeError` instead of returning
a best-effort list: `_analyze_batch_map_reduce` invokes
`reduce_phase(batches, map_batch, ...)`, handing the list of batches to
`map_batch` as the reduce function, whose `p["content"]` subscripts a
list.  Per-chunk analysis never even starts; its `reduce_batch` closure is
dead code.  The claim (and §7's propagation policy) describe the evident
intent. -/
theorem C3_analyze_batch_map_reduce_path_raises_type_error
    (texts : List String) (use_mr : Bool) (clean : String → String)
    (count : List String → Nat) (direct : List Dyn → Except String (List A))
    (directPath : List String → Except String (List A))
    (h : texts ≠ []) (hpath : 4000 < count (texts.map clean) ∨ use_mr = true) :
    analyze_batch texts use_mr clean count direct directPath
      = Except.error "TypeError: list indices must be integers or slices, not str" := by
  unfold analyze_batch
  rw [if_neg (by simpa [List.isEmpty_iff] using h)]
  rw [if_pos (by
    rcases hpath with hp | hp
    · simp [hp]
    · simp [hp])]
  apply analyze_batch_map_reduce_raises
  simpa using h

/-- Witness for C3 at a concrete input: one text with map-reduce
requested; the call raises the `TypeError`. -/
theorem C3_witness :
    analyze_batch ["great product"] true id (fun _ => 0)
        (fun _ => Except.ok ([] : List Nat)) (fun _ => Except.ok [])
      = Except.error "TypeError: list indices must be integers or slices, not str" :=
  C3_analyze_batch_map_reduce_path_raises_type_error ["great product"] true id
    (fun _ => 0) (fun _ => Except.ok []) (fun _ => Except.ok [])
    (by simp) (Or.inr rfl)

/-- C4 as stated is false: `_validate_result` converts the score with
Python `int(...)`, which raises on a non-numeric score value instead of
clamping; here a string score makes the call raise `ValueError`. -/
theorem C4_counterexample :
    validate_result ⟨some (.vstr "very positive"), some (.vstr "positive"),
        some (.vfloat 1), none⟩
      = .error "ValueError" := rfl

/-- C4 amended: for every raw result dictionary whose score entry (after
defaulting a missing one to 50) converts with `int(...)` — an integer, a
float, or an integer-parsing string; otherwise `int` raises — the returned
record has its score clamped into [0, 100] (out-of-range values clamped,
not rejected), a label among positive/negative/neutral, and an invalid
label re-derived from the clamped score by the 60/40 thresholds of
`deriveLabel`. -/
theorem C4_validate_result_clamps_score_and_label
    (raw : RawResult) (rec : SentimentRecord)
    (h : validate_result raw = .ok rec) :
    0 ≤ rec.score ∧ rec.score ≤ 100 ∧
      rec.label ∈ ["positive", "negative", "neutral"] ∧
      (∀ n, pyToInt (raw.score.getD (.vint 50)) = .ok n → rec.score = max 0 (min 100 n)) ∧
      (labelValid raw.label = false → rec.label = deriveLabel rec.score) := by
  simp only [validate_result] at h
  cases hp : pyToInt (raw.score.getD (.vint 50)) with
  | error e => rw [hp] at h; cases h
  | ok n =>
      rw [hp] at h
      simp only [Except.ok.injEq] at h
      subst h
      refine ⟨by simp, by simp, ?_, ?_, ?_⟩
      · show (match raw.label.getD (.vstr "neutral") with
          | PyVal.vstr s => if s ∈ ["positive", "negative", "neutral"] then s
              else deriveLabel (max 0 (min 100 n))
          | _ => deriveLabel (max 0 (min 100 n))) ∈ ["positive", "negative", "neutral"]
        cases hl : raw.label.getD (.vstr "neutral") with
        | vstr s =>
            by_cases hs : s ∈ ["positive", "negative", "neutral"]
            · simp [hs]
            · simpa [hs] using deriveLabel_mem _
        | vint m => exact deriveLabel_mem _
        | vfloat q => exact deriveLabel_mem _
        | vnone => exact deriveLabel_mem _
      · intro m hm
        injection hm with hm
        subst hm
        rfl
      · intro hinvalid
        unfold labelValid at hinvalid
        show (match raw.label.getD (.vstr "neutral") with
          | PyVal.vstr s => if s ∈ ["positive", "negative", "neutral"] then s
              else deriveLabel (max 0 (min 100 n))
          | _ => deriveLabel (max 0 (min 100 n))) = deriveLabel (max 0 (min 100 n))
        cases hl : raw.label.getD (.vstr "neutral") with
        | vstr s =>
            rw [hl] at hinvalid
            simp only [decide_eq_false_iff_not] at hinvalid
            simp [hinvalid]
        | vint m => rfl
        | vfloat q => rfl
        | vnone => rfl

/-- Witness for C4 at a concrete input: an out-of-range integer score of
150 and a bogus label normalize to the clamped score 100 and the
re-derived label "positive". -/
theorem C4_witness :
    validate_result ⟨some (.vint 150), some (.vstr "great"), none, none⟩
        = .ok ⟨100, "positive", .vfloat (1/2), .vstr "Sentiment analysis completed"⟩ ∧
    (0 ≤ (100 : Int) ∧ (100 : Int) ≤ 100 ∧
      "positive" ∈ ["positive", "negative", "neutral"] ∧
      (∀ n, pyToInt ((some (PyVal.vint 150)).getD (.vint 50)) = .ok n →
        (100 : Int) = max 0 (min 100 n)) ∧
      (labelValid (some (.vstr "great")) = false → "positive" = deriveLabel 100)) :=
  ⟨rfl, C4_validate_result_clamps_score_and_label
    ⟨some (.vint 150), some (.vstr "great"), none, none⟩
    ⟨100, "positive", .vfloat (1/2), .vstr "Sentiment analysis completed"⟩ rfl⟩

/-- C5: the sentiment aggregate is the arithmetic mean rounded to one
decimal: on the empty list it is the fixed default 50.0, on a single
integer score it returns that score, and on a pair of integer scores it
returns `round((a+b)/2, 1)`; the v1 variant (sentiment.py, mean without
rounding) agrees on these inputs because a half-integer is fixed by
rounding to one decimal.  (Scores in this pipeline are the integers of a
`SentimentRecord`, for which the exact-rational model of Python's float
arithmetic is exact.) -/
theorem C5_calculate_overall_sentiment_mean_rounded :
    calculate_overall_sentiment [] = 50 ∧
    (∀ x : Int, calculate_overall_sentiment [(x : Rat)] = x) ∧
    (∀ a b : Int, calculate_overall_sentiment [(a : Rat), (b : Rat)]
      = pyRound1 (((a : Rat) + b) / 2)) ∧
    calculate_overall_sentiment_v1 [] = 50 ∧
    (∀ x : Rat, calculate_overall_sentiment_v1 [x] = x) ∧
    (∀ a b : Int, calculate_overall_sentiment_v1 [(a : Rat), (b : Rat)]
      = pyRound1 (((a : Rat) + b) / 2)) := by
  refine ⟨rfl, ?_, ?_, rfl, ?_, ?_⟩
  · intro x
    unfold calculate_overall_sentiment
    simp
    exact pyRound1_int x
  · intro a b
    unfold calculate_overall_sentiment
    norm_num
  · intro x
    unfold calculate_overall_sentiment_v1
    simp
  · intro a b
    unfold calculate_overall_sentiment_v1
    norm_num
    rw [show ((a : Rat) + b) / 2 = (((a + b : Int) : Rat)) / 2 by push_cast; ring]
    rw [pyRound1_half_int]

/-- C6 as stated is false: when the input already has at most
`maxClusters` clusters it is returned unchanged, hence not necessarily
sorted descending by mention count — here a 2-element input under a limit
of 3 comes back in its original ascending order. -/
theorem C6_counterexample :
    ¬ List.Sorted clusterDescOrder
      (merge_similar_clusters
        [⟨"alpha", "", some 1, some []⟩, ⟨"beta", "", some 5, some []⟩] 3) := by
  decide

/-- C6 amended: `_merge_similar_clusters` always returns at most
`maxClusters` clusters; an input of at most `maxClusters` clusters is
returned unchanged (in its original, not necessarily sorted, order), and
only a larger input is merged, sorted descending by mention count and
truncated. -/
theorem C6_merge_similar_clusters_truncates_and_sorts
    (clusters : List Cluster) (max_clusters : Nat) :
    (merge_similar_clusters clusters max_clusters).length ≤ max_clusters ∧
    (clusters.length ≤ max_clusters →
      merge_similar_clusters clusters max_clusters = clusters) ∧
    (max_clusters < clusters.length →
      List.Sorted clusterDescOrder (merge_similar_clusters clusters max_clusters)) := by
  by_cases h : clusters.length ≤ max_clusters
  · refine ⟨?_, fun _ => ?_, fun hlt => absurd h (by omega)⟩
    · rw [merge_similar_clusters, if_pos h]
      exact h
    · rw [merge_similar_clusters, if_pos h]
  · refine ⟨?_, fun hle => absurd hle h, fun _ => ?_⟩
    · rw [merge_similar_clusters, if_neg h]
      exact List.length_take_le _ _
    · rw [merge_similar_clusters, if_neg h]
      exact List.Pairwise.sublist (List.take_sublist _ _)
        (List.sorted_insertionSort clusterDescOrder _)

/-- Witness for C6 at a concrete input: three clusters truncated to one;
the result has length 1 and is sorted descending. -/
theorem C6_witness :
    (merge_similar_clusters [⟨"cost", "", some 1, some []⟩,
        ⟨"shipping", "", some 4, some []⟩, ⟨"design", "", some 2, some []⟩] 1).length ≤ 1 ∧
    (1 < ([⟨"cost", "", some 1, some []⟩, ⟨"shipping", "", some 4, some []⟩,
        ⟨"design", "", some 2, some []⟩] : List Cluster).length →
      List.Sorted clusterDescOrder
        (merge_similar_clusters [⟨"cost", "", some 1, some []⟩,
          ⟨"shipping", "", some 4, some []⟩, ⟨"design", "", some 2, some []⟩] 1)) :=
  ⟨(C6_merge_similar_clusters_truncates_and_sorts _ 1).1,
    (C6_merge_similar_clusters_truncates_and_sorts _ 1).2.2⟩

/-- C7: merging `{label: "Price Concerns", mention_count: 3}` and
`{label: "Price Discussion", mention_count: 2}` with `maxClusters = 1`
yields exactly one cluster with the first member's label, the templated
summary, `mention_count = 5`, and as `sample_quotes` the first 3 distinct
quotes across members in encounter order — their lower-cased
whitespace-tokenized labels share the token "price", so greedy in-order
grouping merges them.  Shown both for the bare clusters of the claim and
for an instance with sample quotes exhibiting the in-order
deduplication. -/
theorem C7_price_clusters_merge_to_one :
    merge_similar_clusters
        [⟨"Price Concerns", "s1", some 3, none⟩, ⟨"Price Discussion", "s2", some 2, none⟩] 1
      = [⟨"Price Concerns", "Combined insights from 2 related discussions", some 5, some []⟩] ∧
    merge_similar_clusters
        [⟨"Price Concerns", "s1", some 3, some ["q1", "q2"]⟩,
         ⟨"Price Discussion", "s2", some 2, some ["q2", "q3", "q4"]⟩] 1
      = [⟨"Price Concerns", "Combined insights from 2 related discussions", some 5,
          some ["q1", "q2", "q3"]⟩] := by
  constructor
  · decide
  · decide

/-- C8 as stated is false: single-member groups (and the unchanged early
return) pass input clusters through untouched, so an input cluster with
duplicate sample quotes can appear unchanged in the output. -/
theorem C8_counterexample :
    ¬ (∀ c ∈ merge_similar_clusters
        [⟨"alpha", "", some 5, some ["q", "q"]⟩, ⟨"beta", "", some 2, some []⟩] 1,
        clusterWF c) := by
  decide

/-- C8 amended: provided every input cluster is well-formed
(`mention_count ≥ 0`, at most 3 pairwise-distinct sample quotes), every
cluster returned by `_merge_similar_clusters` is well-formed: pass-through
clusters are input clusters, and a synthesized cluster sums non-negative
counts and collects at most 3 distinct quotes. -/
theorem C8_merge_preserves_cluster_wellformedness
    (clusters : List Cluster) (max_clusters : Nat)
    (h : ∀ c ∈ clusters, clusterWF c) :
    ∀ c ∈ merge_similar_clusters clusters max_clusters, clusterWF c := by
  intro c hc
  by_cases hl : clusters.length ≤ max_clusters
  · rw [merge_similar_clusters, if_pos hl] at hc
    exact h c hc
  · rw [merge_similar_clusters, if_neg hl] at hc
    have hc2 : c ∈ ((greedyGroups clusters).map mergeGroup).insertionSort clusterDescOrder :=
      List.mem_of_mem_take hc
    have hc3 : c ∈ (greedyGroups clusters).map mergeGroup :=
      (List.perm_insertionSort clusterDescOrder _).mem_iff.mp hc2
    rcases List.mem_map.mp hc3 with ⟨g, hg, rfl⟩
    exact mergeGroup_wf g clusters (greedyGroupsAux_sub _ _ g hg) h

/-- Witness for C8 at a concrete input: two well-formed clusters with
overlapping labels merged under a limit of 1; the output clusters are
well-formed. -/
theorem C8_witness :
    (∀ c ∈ ([⟨"price today", "", some 3, some ["a", "b"]⟩,
        ⟨"price policy", "", some 2, some ["b", "c"]⟩] : List Cluster), clusterWF c) ∧
    (∀ c ∈ merge_similar_clusters
        [⟨"price today", "", some 3, some ["a", "b"]⟩,
         ⟨"price policy", "", some 2, some ["b", "c"]⟩] 1, clusterWF c) :=
  ⟨by decide, C8_merge_preserves_cluster_wellformedness _ 1 (by decide)⟩

/-- C9: for every ordered list of 8 items whose estimated total token
count is 9000, `split_posts` with a 3000-token-per-chunk budget computes
`chunks_needed = 3` and `batch_size = 2`, producing 4 ≥ 3 groups, each a
contiguous slice of the item list, whose in-order concatenation is exactly
the original list. -/
theorem C9_split_posts_eight_posts_nine_thousand_tokens
    (contentLen : α → Nat) (posts : List α) (p : MapReduceProcessor)
    (hmax : p.max_tokens_per_chunk = 3000) (hlen : posts.length = 8)
    (htok : estimate_tokens_from_chars ((posts.map contentLen).sum) = 9000) :
    3 ≤ (p.split_posts contentLen posts).length ∧
      (p.split_posts contentLen posts).flatten = posts ∧
      ∀ b ∈ p.split_posts contentLen posts, ∃ i, b = (posts.drop i).take 2 := by
  have hsp : p.split_posts contentLen posts = sliceChunks 2 2 posts := by
    simp only [MapReduceProcessor.split_posts]
    rw [htok, hmax, hlen]
    norm_num
  rw [hsp]
  refine ⟨?_, ?_, ?_⟩
  · rw [sliceChunks, sliceAux_length 2 (by omega) posts.length posts le_rfl, hlen]
    norm_num
  · exact sliceAux_flatten 2 (by omega) _ posts le_rfl
  · intro b hb
    exact sliceAux_mem_slice 2 2 (by omega) _ posts b hb

/-- Witness for C9 at a concrete input: 8 posts of 4500 characters each
(36000 characters, estimating to exactly 9000 tokens) against a
3000-token budget. -/
theorem C9_witness :
    ((MapReduceProcessor.mk 3000 200 5).max_tokens_per_chunk = 3000) ∧
    (List.replicate 8 (String.mk (List.replicate 4500 (Char.ofNat 97)))).length = 8 ∧
    estimate_tokens_from_chars
      (((List.replicate 8 (String.mk (List.replicate 4500 (Char.ofNat 97)))).map
        String.length).sum) = 9000 ∧
    3 ≤ ((MapReduceProcessor.mk 3000 200 5).split_posts String.length
      (List.replicate 8 (String.mk (List.replicate 4500 (Char.ofNat 97))))).length := by
  have hlen : (List.replicate 8 (String.mk (List.replicate 4500 (Char.ofNat 97)))).length = 8 := by
    simp
  have htok : estimate_tokens_from_chars
      (((List.replicate 8 (String.mk (List.replicate 4500 (Char.ofNat 97)))).map
        String.length).sum) = 9000 := by
    rw [estimate_tokens_from_chars_en]
    have hone : (String.mk (List.replicate 4500 (Char.ofNat 97))).length = 4500 := by
      rw [show (String.mk (List.replicate 4500 (Char.ofNat 97))).length
        = (List.replicate 4500 (Char.ofNat 97)).length from rfl, List.length_replicate]
    rw [List.map_replicate, hone, List.sum_replicate, smul_eq_mul]
  exact ⟨rfl, hlen, htok,
    (C9_split_posts_eight_posts_nine_thousand_tokens String.length _ _ rfl hlen htok).1⟩

/-- C10: for every token sequence and text, every
`maxTokensPerChunk ≥ 1` and every `overlap < maxTokensPerChunk`, the
splitter terminates (the model is total; the loop advances by
`maxTokensPerChunk - overlap ≥ 1` positions) and returns an ordered list
of chunks: on the encoder path every chunk is at most
`maxTokensPerChunk` tokens and dropping the first
`maxTokensPerChunk - overlap` tokens of a chunk yields the first
`overlap` tokens of the next (the shared overlap region, by token count);
on the fallback path the same holds with proportional characters
(4 characters per token), so every chunk estimates to at most
`maxTokensPerChunk` tokens. -/
theorem C10_split_text_by_tokens_bounds_and_overlap
    (tokens : List Nat) (text : String) (mt ov : Nat)
    (hmt : 1 ≤ mt) (hov : ov < mt) :
    (∀ c ∈ split_text_by_tokens_tok tokens mt ov, c.length ≤ mt) ∧
    List.Chain' (fun a b => a.drop (mt - ov) = b.take ov)
      (split_text_by_tokens_tok tokens mt ov) ∧
    (∀ c ∈ split_text_by_tokens_fallback text mt ov,
      c.length ≤ 4 * mt ∧ estimate_tokens_from_chars c.length ≤ mt) ∧
    List.Chain' (fun a b => a.data.drop (4 * mt - 4 * ov) = b.data.take (4 * ov))
      (split_text_by_tokens_fallback text mt ov) := by
  refine ⟨?_, ?_, ?_, ?_⟩
  · intro c hc
    exact sliceAux_mem_length _ _ _ _ c hc
  · have h := sliceAux_chain mt (mt - ov) (by omega) (by omega) tokens.length tokens le_rfl
    have he : mt - (mt - ov) = ov := by omega
    simpa [split_text_by_tokens_tok, sliceChunks, he] using h
  · intro c hc
    rcases List.mem_map.mp hc with ⟨cs, hcs, rfl⟩
    have h1 : cs.length ≤ 4 * mt := sliceAux_mem_length _ _ _ _ cs hcs
    have h2 : (String.mk cs).length = cs.length := rfl
    refine ⟨by rw [h2]; exact h1, ?_⟩
    rw [h2, estimate_tokens_from_chars_en]
    calc cs.length / 4 ≤ (4 * mt) / 4 := Nat.div_le_div_right h1
      _ = mt := by rw [Nat.mul_div_cancel_left mt (by norm_num)]
  · have h := sliceAux_chain (4 * mt) (4 * mt - 4 * ov) (by omega) (by omega)
      text.data.length text.data le_rfl
    have he : 4 * mt - (4 * mt - 4 * ov) = 4 * ov := by omega
    rw [split_text_by_tokens_fallback, List.chain'_map]
    simpa [sliceChunks, he] using h

/-- Witness for C10 at a concrete input: five tokens and a ten-character
text split with a budget of 2 tokens and overlap 1. -/
theorem C10_witness :
    (1 : Nat) ≤ 2 ∧ (1 : Nat) < 2 ∧
    ((∀ c ∈ split_text_by_tokens_tok [10, 20, 30, 40, 50] 2 1, c.length ≤ 2) ∧
    List.Chain' (fun a b => a.drop 1 = b.take 1)
      (split_text_by_tokens_tok [10, 20, 30, 40, 50] 2 1) ∧
    (∀ c ∈ split_text_by_tokens_fallback "abcdefghij" 2 1,
      c.length ≤ 8 ∧ estimate_tokens_from_chars c.length ≤ 2) ∧
    List.Chain' (fun a b => a.data.drop 4 = b.data.take 4)
      (split_text_by_tokens_fallback "abcdefghij" 2 1)) :=
  ⟨by omega, by omega,
    C10_split_text_by_tokens_bounds_and_overlap [10, 20, 30, 40, 50] "abcdefghij" 2 1
      (by omega) (by omega)⟩

end TrendPulse

